import Mathlib

/-!
Verification of the backtesting engine (order management, strategy signal
generation, position sizing, and performance metrics) against its design
specification.  Each definition below is a shallow embedding of a function
of the Python source; prices and cash are embedded as rationals, Python
dictionaries as association lists, and a raised exception as an
`Except.error` result.
-/

namespace Backtest

/-- Assignment `d[k] = v` on a Python dict, embedded on an association list:
the new binding shadows (removes) any previous binding of the same key. -/
def dictInsert {α : Type} (k : String) (v : α) (d : List (String × α)) :
    List (String × α) :=
  (k, v) :: d.filter (fun kv => kv.1 ≠ k)

/-- Lookup `d.get(k)` on a Python dict embedded as an association list. -/
def dictGet {α : Type} (d : List (String × α)) (k : String) : Option α :=
  (d.find? (fun kv => kv.1 = k)).map Prod.snd

/-- The `Order` value from `order.py`.  Modelled from the spec: the file
`order.py` itself is not in the sources, only its callers; per the data
model an order carries an id, symbol, side, type, a quantity, an optional
price and an optional timestamp.  Timestamps are embedded as naturals
(datetime values, which are always truthy in Python). -/
structure Order where
  id : String
  symbol : String
  side : String
  type : String
  quantity : Int
  price : Option ℚ
  timestamp : Option Nat
deriving Repr, DecidableEq

/-- The mutable state of `OrderManagementSystem` (`oms.py`): the two dicts
`_orders` and `_statuses`, whether a matching engine is configured, and the
list of orders forwarded to it by `add_order` calls. -/
structure OMSState where
  orders : List (String × Order)
  statuses : List (String × String)
  hasEngine : Bool
  forwarded : List Order
deriving Repr, DecidableEq

/-- The fresh state built by `OrderManagementSystem.__init__`. -/
def OMSState.init (hasEngine : Bool) : OMSState :=
  ⟨[], [], hasEngine, []⟩

/-- The acknowledgement dict returned by `new_order` on success. -/
structure Ack where
  order_id : String
  status : String
  timestamp : Nat
deriving Repr, DecidableEq

/-- Embedding of `OrderManagementSystem.new_order` (`oms.py`, lines 18-53).
`now` stands for `datetime.utcnow()`.  A `raise ValueError` is embedded as
an `Except.error` carrying the message; since every raise in the source
happens before any mutation, the state component is returned unchanged on
error.  On success the order's timestamp is resolved (`order.timestamp =
order.timestamp or now`; datetimes are always truthy, so a supplied
timestamp is kept), the order and the status `accepted` are stored under
the order's id, the order is forwarded when an engine is configured, and
the acknowledgement dict is returned. -/
def new_order (s : OMSState) (now : Nat) (order : Order) :
    OMSState × Except String Ack :=
  if order.side ∉ ["buy", "sell"] then
    (s, Except.error "Order side must be buy or sell")
  else if order.quantity ≤ 0 then
    (s, Except.error "Order quantity must be greater than 0")
  else if order.type ∉ ["market", "limit", "stop"] then
    (s, Except.error "Order type must be market, limit, or stop")
  else if (order.type = "limit" ∨ order.type = "stop") ∧ order.price = none then
    (s, Except.error "Limit/stop orders must have a price specified")
  else
    let ts := order.timestamp.getD now
    let stored : Order := { order with timestamp := some ts }
    ({ s with
        orders := dictInsert order.id stored s.orders
        statuses := dictInsert order.id "accepted" s.statuses
        forwarded := if s.hasEngine then s.forwarded ++ [stored] else s.forwarded },
     Except.ok ⟨order.id, "accepted", ts⟩)

/-- The validation rules as the spec words them: side not in buy/sell,
quantity non-positive, type outside market/limit/stop, or a limit/stop
order without a price.  This is the spec side of the refinement claim
about OMS validation; it is to be compared with the checks of `new_order`
above, which were transcribed from the source. -/
def spec_violates_rule (order : Order) : Bool :=
  decide (order.side ∉ ["buy", "sell"]) ||
  decide (order.quantity ≤ 0) ||
  decide (order.type ∉ ["market", "limit", "stop"]) ||
  (decide (order.type = "limit" ∨ order.type = "stop") && decide (order.price = none))

/-- Slope of the degree-1 least-squares fit `np.polyfit(x, y, 1)[0]`
(`strategies/arbitrage.py`, line 42), in exact rational arithmetic:
(n Σxy − Σx Σy) / (n Σx² − (Σx)²).  (Lean's division-by-zero convention
gives 0 for a degenerate x series; the source would warn there.) -/
def polyfitSlope (x y : List ℚ) : ℚ :=
  let n : ℚ := x.length
  let sx := x.sum
  let sy := y.sum
  let sxy := (List.zipWith (fun a b => a * b) x y).sum
  let sxx := (x.map (fun a => a * a)).sum
  (n * sxy - sx * sy) / (n * sxx - sx * sx)

/-- The spread column of `strategies/arbitrage.py`, lines 42-43:
`beta = np.polyfit(df.p2, df.p1, 1)[0]; spread = p1 - beta * p2`.
Note the hedge ratio `beta` is fit on the whole aligned history. -/
def arbSpread (p1 p2 : List ℚ) : List ℚ :=
  let beta := polyfitSlope p2 p1
  List.zipWith (fun a b => a - beta * b) p1 p2

/-- One iteration of the signal loop of `strategies/arbitrage.py`
(lines 48-81) at bar i: from the spread at i, the spread at i−1 and the
position carried from i−1, produce the pair (signal, position) written
into row i.  A row the loop does not touch keeps the initialised
signal 0. -/
def arbStep (threshold prevSpread spread : ℚ) (prevPos : Int) : Int × Int :=
  if prevPos = 0 then
    if spread > threshold ∧ prevSpread ≤ threshold then (-1, -1)
    else if spread < -threshold ∧ prevSpread ≥ -threshold then (1, 1)
    else (0, prevPos)
  else if prevPos = 1 then
    if |spread| ≤ threshold ∧ |prevSpread| > threshold then (0, 0)
    else (0, prevPos)
  else if prevPos = -1 then
    if |spread| ≤ threshold ∧ |prevSpread| > threshold then (0, 0)
    else (0, prevPos)
  else (0, prevPos)

/-- The signal loop of `strategies/arbitrage.py` from bar 1 on, carrying
the previous spread and previous position. -/
def arbLoop (threshold : ℚ) : ℚ → Int → List ℚ → List (Int × Int)
  | _, _, [] => []
  | prevSpread, prevPos, spread :: rest =>
    let sp := arbStep threshold prevSpread spread prevPos
    sp :: arbLoop threshold spread sp.2 rest

/-- The full (signal, position) columns of `strategies/arbitrage.py`
(lines 46-81): row 0 keeps the initialised (0, 0) and the loop runs from
bar 1. -/
def arbSignals (threshold : ℚ) (spreads : List ℚ) : List (Int × Int) :=
  match spreads with
  | [] => []
  | s0 :: rest => (0, 0) :: arbLoop threshold s0 0 rest

/-- The filter `signals_df = df[df.signal != 0]` (`strategies/arbitrage.py`,
lines 84-85), keeping the bar index with each retained signal. -/
def nonzeroSignalBars (sigs : List (Int × Int)) : List (Nat × Int) :=
  sigs.enum.filterMap (fun p => if p.2.1 ≠ 0 then some (p.1, p.2.1) else none)

/-- The emitted signal records of the arbitrage strategy as a function of
the two price histories and the threshold (`strategies/arbitrage.py`,
lines 41-85). -/
def arbEmittedSignals (p1 p2 : List ℚ) (threshold : ℚ) : List (Nat × Int) :=
  nonzeroSignalBars (arbSignals threshold (arbSpread p1 p2))

/-- Signal value at bar i of the arbitrage strategy (0 when i is out of
range), used to compare runs on different histories bar by bar. -/
def arbSignalAt (p1 p2 : List ℚ) (threshold : ℚ) (i : Nat) : Int :=
  (((arbSignals threshold (arbSpread p1 p2)).get? i).map Prod.fst).getD 0

/-- Python `int()` applied to a rational: truncation toward zero. -/
def pyInt (q : ℚ) : Int :=
  if 0 ≤ q then ⌊q⌋ else -⌊-q⌋

/-- Per-signal trade decision of the mean-reversion backtest loop
(`strategies/mean_reversion.py`, lines 120-146): from the current tracker
cash, the tracker's recorded positions, the configured position fraction,
the signal and the bar's price, produce the (side, quantity) of the order
to submit, or `none` when the loop falls through to `continue` (flat exit,
unknown signal value, or a computed quantity ≤ 0). -/
def mrTradeDecision (symbol : String) (positionFraction cash : ℚ)
    (positions : List (String × Int)) (signal : Int) (price : ℚ) :
    Option (String × Int) :=
  let sideQty : Option (String × Int) :=
    if signal = 1 then
      let maxInvestment := cash * positionFraction
      some ("buy", pyInt (maxInvestment / price))
    else if signal = -1 then
      let maxInvestment := cash * positionFraction
      some ("sell", pyInt (maxInvestment / price))
    else if signal = 0 then
      let currentPosition := (dictGet positions symbol).getD 0
      if currentPosition > 0 then some ("sell", currentPosition)
      else if currentPosition < 0 then some ("buy", |currentPosition|)
      else none
    else none
  match sideQty with
  | none => none
  | some (side, quantity) =>
    if quantity ≤ 0 then none else some (side, quantity)

/-- Per-signal trade decision of the trend-following backtest loop
(`strategies/trend_following.py`, lines 73-81): the quantity is the
literal 100 for both sides; `risk_params` is never consulted. -/
def tfTradeDecision (signal : Int) : Option (String × Int) :=
  if signal = 1 then some ("buy", 100)
  else if signal = -1 then some ("sell", 100)
  else none

/-- Entry sizing of the arbitrage backtest loop (`strategies/arbitrage.py`,
lines 102-107): both legs are sized from the same cash fraction and the
signal is skipped when either computed quantity is ≤ 0. -/
def arbEntrySizing (positionFraction cash price1 price2 : ℚ) :
    Option (Int × Int) :=
  let maxInvestment := cash * positionFraction
  let qty1 := pyInt (maxInvestment / price1)
  let qty2 := pyInt (maxInvestment / price2)
  if qty1 ≤ 0 ∨ qty2 ≤ 0 then none else some (qty1, qty2)

/-- A row of the tracker's blotter restricted to the fields the metric
computations read: the realized pnl and the signed cash flow. -/
structure BlotterRow where
  pnl : ℚ
  cash_flow : ℚ
deriving Repr, DecidableEq

/-- Running sums, as `Series.cumsum()`. -/
def cumsum (l : List ℚ) : List ℚ :=
  (l.scanl (fun acc x => acc + x) 0).tail

/-- Consecutive percentage changes, as `Series.pct_change().dropna()`:
`dropna` removes the leading NaN, leaving one entry per consecutive pair.
A zero denominator is sent to 0 by Lean's division convention where pandas
would produce an inf or a NaN; theorems that depend on this column
therefore carry a nonzero-equity hypothesis. -/
def pctChange (l : List ℚ) : List ℚ :=
  (l.zip l.tail).map (fun ab => (ab.2 - ab.1) / ab.1)

/-- Running maxima, as `Series.expanding().max()`. -/
def runningMax : List ℚ → List ℚ
  | [] => []
  | x :: rest => go x rest
where go (m : ℚ) : List ℚ → List ℚ
  | [] => [m]
  | x :: rest => m :: go (max m x) rest

/-- Minimum of a series, as `Series.min()`; 0 for an empty series (the
metric code only applies it to nonempty series). -/
def listMin : List ℚ → ℚ
  | [] => 0
  | x :: rest => rest.foldl min x

/-- Arithmetic mean of a series, as `Series.mean()`. -/
def listMean (l : List ℚ) : ℚ :=
  l.sum / l.length

/-- Sample standard deviation with ddof 1, as `Series.std()`: `none`
models the NaN pandas returns on fewer than two samples. -/
noncomputable def sampleStd (l : List ℚ) : Option ℝ :=
  if 2 ≤ l.length then
    let xs : List ℝ := l.map (fun q => (q : ℝ))
    let m : ℝ := xs.sum / l.length
    some (Real.sqrt ((xs.map (fun x => (x - m) ^ 2)).sum / (l.length - 1)))
  else none

/-- Annualized Sharpe ratio as computed by `strategies/mean_reversion.py`,
lines 185-188 (and identically by `strategies/arbitrage.py`): mean over
std times √252 when the std is positive, else the literal 0.  A NaN std
(fewer than two returns) compares false with 0 in Python, so it also
falls to the 0 branch. -/
noncomputable def guardedSharpe (returns : List ℚ) : ℝ :=
  match sampleStd returns with
  | some s => if 0 < s then (listMean returns : ℝ) / s * Real.sqrt 252 else 0
  | none => 0

/-- The equity curve of `strategies/mean_reversion.py`, lines 177-178:
starting cash plus the running sum of the blotter's pnl column. -/
def mrEquity (startingCash : ℚ) (blotter : List BlotterRow) : List ℚ :=
  (cumsum (blotter.map (fun r => r.pnl))).map (fun c => startingCash + c)

/-- The relative drawdown series `(equity - peak) / peak` with `peak` the
expanding maximum (`strategies/mean_reversion.py`, lines 191-192). -/
def relativeDrawdowns (equity : List ℚ) : List ℚ :=
  List.zipWith (fun e p => (e - p) / p) equity (runningMax equity)

/-- The (sharpe, max drawdown) pair computed by the metric block of
`strategies/mean_reversion.py`, lines 173-199: both are 0 unless the
blotter is nonempty with more than one row; inside, the drawdown and the
guarded sharpe are only computed when more than one return exists, else
both are 0 again. -/
noncomputable def mrMetrics (startingCash : ℚ) (blotter : List BlotterRow) :
    ℝ × ℚ :=
  if blotter ≠ [] ∧ 1 < blotter.length then
    let equity := mrEquity startingCash blotter
    let returns := pctChange equity
    if 1 < returns.length then
      (guardedSharpe returns, listMin (relativeDrawdowns equity))
    else (0, 0)
  else (0, 0)

/-- The (sharpe, max drawdown) pair computed by the metric block of
`strategies/arbitrage.py`, lines 188-204: as in mean reversion, except
that the single guard `len(returns) > 1 and returns.std() > 0` covers the
drawdown as well, so a zero or NaN std zeroes both metrics. -/
noncomputable def arbMetrics (startingCash : ℚ) (blotter : List BlotterRow) :
    ℝ × ℚ :=
  if blotter ≠ [] ∧ 1 < blotter.length then
    let equity := mrEquity startingCash blotter
    let returns := pctChange equity
    -- `returns.std() > 0` is false both for a zero std and for a NaN std
    -- (fewer than two returns); the NaN case is `none`, read here as 0.
    if 1 < returns.length ∧ 0 < (sampleStd returns).getD 0 then
      ((listMean returns : ℝ) / (sampleStd returns).getD 0 * Real.sqrt 252,
       listMin (relativeDrawdowns equity))
    else (0, 0)
  else (0, 0)

/-- The (sharpe, max drawdown) pair computed by the metric block of
`strategies/trend_following.py`, lines 108-120.  The equity curve is the
cumulative cash flow plus the tracker's (final) cash; the returns series
is `pct_change().fillna(0)`, so it keeps one (zero) entry for the first
row; the sharpe `returns.mean() / returns.std() * sqrt 252` is taken with
no guard, so a NaN or zero std makes it non-finite — modelled as `none`
(a positive std gives `some` of the finite value).  The drawdown is the
absolute `(equity - equity.cummax()).min()`, not a fraction of the peak. -/
noncomputable def tfMetrics (trackerCash : ℚ) (blotter : List BlotterRow) :
    Option ℝ × ℚ :=
  if blotter ≠ [] then
    let equity := (cumsum (blotter.map (fun r => r.cash_flow))).map
      (fun c => c + trackerCash)
    let returns := 0 :: pctChange equity
    let sharpe : Option ℝ :=
      match sampleStd returns with
      | some s =>
        if 0 < s then some ((listMean returns : ℝ) / s * Real.sqrt 252)
        else none
      | none => none
    (sharpe, listMin (List.zipWith (fun e p => e - p) equity (runningMax equity)))
  else (some 0, 0)

/-- Max drawdown as the spec words it: the minimum over time of
(equity − running maximum of equity so far) / running maximum, with
equity the starting cash plus cumulative pnl in blotter order.  This is
the spec side of the drawdown refinement claim, to be compared with the
metric blocks transcribed from the source above. -/
def spec_max_drawdown (startingCash : ℚ) (blotter : List BlotterRow) : ℚ :=
  listMin (relativeDrawdowns (mrEquity startingCash blotter))

/-- Keys of the metrics dict of `strategies/mean_reversion.py`,
lines 202-210. -/
def mrMetricsKeys : List String :=
  ["total_return", "max_drawdown", "sharpe_ratio", "total_pnl",
   "num_trades", "final_cash", "final_positions"]

/-- Keys of the metrics dict of `strategies/arbitrage.py`, lines 206-214. -/
def arbMetricsKeys : List String :=
  ["total_return", "max_drawdown", "sharpe_ratio", "total_pnl",
   "num_trades", "final_cash", "final_positions"]

/-- Keys of the metrics dict of `strategies/trend_following.py`,
lines 122-126. -/
def tfMetricsKeys : List String :=
  ["total_return", "max_drawdown", "sharpe_ratio"]

/-- The metric keys the spec requires of every strategy run (the spec side
of the metrics-keys refinement claim). -/
def spec_required_metrics_keys : List String :=
  ["total_return", "max_drawdown", "sharpe_ratio", "total_pnl",
   "num_trades", "final_cash", "final_positions"]

/-- Price at bar i, as a real (0 outside the series; the loops only read
bars in range). -/
def priceAt (prices : List ℚ) (i : Nat) : ℝ :=
  (((prices.get? i).getD 0 : ℚ) : ℝ)

/-- The length-`win` window of bars ending at bar i, as pandas
`rolling(win)` reads it. -/
def windowAt (win : Nat) (prices : List ℚ) (i : Nat) : List ℚ :=
  (prices.drop (i + 1 - win)).take win

/-- Rolling mean `Series.rolling(win).mean()` at bar i
(`strategies/mean_reversion.py`, line 45): NaN (`none`) until the window
is full. -/
noncomputable def rollingMean (win : Nat) (prices : List ℚ) (i : Nat) :
    Option ℝ :=
  if win ≤ i + 1 ∧ 1 ≤ win then
    some (((windowAt win prices i).map (fun q => (q : ℝ))).sum / win)
  else none

/-- Rolling sample standard deviation `Series.rolling(win).std()` at bar i
(`strategies/mean_reversion.py`, line 46): NaN (`none`) until the window
is full, and always NaN for a window of one sample (ddof 1). -/
noncomputable def rollingStd (win : Nat) (prices : List ℚ) (i : Nat) :
    Option ℝ :=
  if win ≤ i + 1 ∧ 2 ≤ win then
    let xs : List ℝ := (windowAt win prices i).map (fun q => (q : ℝ))
    let m : ℝ := xs.sum / win
    some (Real.sqrt ((xs.map (fun x => (x - m) ^ 2)).sum / (win - 1)))
  else none

/-- The Bollinger upper band `m + num_std * s`
(`strategies/mean_reversion.py`, line 47); NaN propagates from either
input. -/
noncomputable def upperBand (win : Nat) (numStd : ℝ) (prices : List ℚ)
    (i : Nat) : Option ℝ :=
  match rollingMean win prices i, rollingStd win prices i with
  | some m, some s => some (m + numStd * s)
  | _, _ => none

/-- The Bollinger lower band `m - num_std * s`
(`strategies/mean_reversion.py`, line 48). -/
noncomputable def lowerBand (win : Nat) (numStd : ℝ) (prices : List ℚ)
    (i : Nat) : Option ℝ :=
  match rollingMean win prices i, rollingStd win prices i with
  | some m, some s => some (m - numStd * s)
  | _, _ => none

/-- One iteration of the signal loop of `strategies/mean_reversion.py`
(lines 58-101) at bar i: from the prices at bars i and i−1, the three
band values at bar i and the position carried from bar i−1, the pair
(signal, position) written into row i.  When any band is NaN the row
keeps signal 0 and carries the position forward. -/
noncomputable def mrStep (cur prev : ℝ) (upper lower mid : Option ℝ)
    (prevPos : Int) : Int × Int :=
  match upper, lower, mid with
  | some u, some lo, some md =>
    if prevPos = 0 then
      if cur ≤ lo ∧ prev > lo then (1, 1)
      else if cur ≥ u ∧ prev < u then (-1, -1)
      else (0, prevPos)
    else if prevPos = 1 then
      if cur ≥ md ∧ prev < md then (0, 0) else (0, prevPos)
    else if prevPos = -1 then
      if cur ≤ md ∧ prev > md then (0, 0) else (0, prevPos)
    else (0, prevPos)
  | _, _, _ => (0, prevPos)

/-- The (signal, position) pair of row i of the mean-reversion signal
columns (`strategies/mean_reversion.py`, lines 51-101): row 0 keeps the
initialised (0, 0), later rows are produced by the loop. -/
noncomputable def mrRow (win : Nat) (numStd : ℝ) (prices : List ℚ) :
    Nat → Int × Int
  | 0 => (0, 0)
  | i + 1 =>
    mrStep (priceAt prices (i + 1)) (priceAt prices i)
      (upperBand win numStd prices (i + 1))
      (lowerBand win numStd prices (i + 1))
      (rollingMean win prices (i + 1))
      (mrRow win numStd prices i).2

/-- The signal entry of row i of the mean-reversion signal columns. -/
noncomputable def mrSignalAt (win : Nat) (numStd : ℝ) (prices : List ℚ)
    (i : Nat) : Int :=
  (mrRow win numStd prices i).1


/-- The full (signal, position) columns of `strategies/mean_reversion.py`
(lines 51-101) as a list over the bars, row i holding `mrRow i`; the
emitted records are the bars whose signal is nonzero
(`signals_df = history[history.signal != 0]`, lines 103-106). -/
noncomputable def mrSignals (win : Nat) (numStd : ℝ) (prices : List ℚ) :
    List (Int × Int) :=
  (List.range prices.length).map (mrRow win numStd prices)

/-- Rolling mean `Series.rolling(win).mean()` at bar i in exact rational
arithmetic (`strategies/trend_following.py`, lines 32-33): NaN (`none`)
until the window is full. -/
def rollingMeanQ (win : Nat) (prices : List ℚ) (i : Nat) : Option ℚ :=
  if win ≤ i + 1 ∧ 1 ≤ win then
    some ((windowAt win prices i).sum / win)
  else none

/-- The per-bar signal column of `strategies/trend_following.py`,
lines 44-47: 1 where the short moving average is above the long one, -1
where it is below; a comparison against a NaN average is false in
pandas, so bars without a full window keep the initialised 0. -/
def tfSignalAt (shortWin longWin : Nat) (prices : List ℚ) (i : Nat) : Int :=
  match rollingMeanQ shortWin prices i, rollingMeanQ longWin prices i with
  | some s, some l => if s > l then 1 else if s < l then -1 else 0
  | _, _ => 0

/-- The change-only signal column of `strategies/trend_following.py`,
lines 54-59: `prev_signal = signal.shift(1).fillna(0)`, and
`clean_signal` keeps the signal where it differs from the previous
bar's signal, else 0. -/
def tfCleanSignalAt (shortWin longWin : Nat) (prices : List ℚ) (i : Nat) : Int :=
  let signal := tfSignalAt shortWin longWin prices i
  let prevSignal : Int :=
    match i with
    | 0 => 0
    | j + 1 => tfSignalAt shortWin longWin prices j
  if signal ≠ prevSignal then signal else 0

/-- The (clean signal, per-bar target signal) columns of
`strategies/trend_following.py` as a list over the bars; the emitted
records are the bars whose clean signal is nonzero
(`signals_df = history[history.clean_signal != 0]`, line 68). -/
def tfSignals (shortWin longWin : Nat) (prices : List ℚ) : List (Int × Int) :=
  (List.range prices.length).map (fun i =>
    (tfCleanSignalAt shortWin longWin prices i, tfSignalAt shortWin longWin prices i))

theorem dictGet_insert_self {α : Type} (k : String) (v : α) (d : List (String × α)) :
    dictGet (dictInsert k v d) k = some v := by
  simp [dictGet, dictInsert, List.find?]

theorem new_order_eq_of_valid (s : OMSState) (now : Nat) (o : Order)
    (hv : spec_violates_rule o = false) :
    new_order s now o =
      ({ s with
          orders := dictInsert o.id { o with timestamp := some (o.timestamp.getD now) } s.orders
          statuses := dictInsert o.id "accepted" s.statuses
          forwarded := if s.hasEngine then
              s.forwarded ++ [{ o with timestamp := some (o.timestamp.getD now) }]
            else s.forwarded },
       Except.ok ⟨o.id, "accepted", o.timestamp.getD now⟩) := by
  simp only [spec_violates_rule, Bool.or_eq_false_iff, decide_eq_false_iff_not,
    Bool.and_eq_false_iff, not_not] at hv
  unfold new_order
  rw [if_neg, if_neg, if_neg, if_neg]
  · tauto
  · tauto
  · tauto
  · tauto

theorem new_order_error_of_invalid (s : OMSState) (now : Nat) (o : Order)
    (hv : spec_violates_rule o = true) :
    ∃ msg, new_order s now o = (s, Except.error msg) := by
  unfold new_order
  split_ifs with h1 h2 h3 h4 <;>
    first
      | exact ⟨_, rfl⟩
      | (exfalso
         simp only [spec_violates_rule, Bool.or_eq_true, decide_eq_true_eq,
           Bool.and_eq_true] at hv
         tauto)


/-- C2: OMS submission errors exactly on the validation rules; on a
violation the state (orders, statuses, forwarded) is untouched, and a
valid order is acknowledged with status accepted. -/
theorem oms_validation_characterization (s : OMSState) (now : Nat) (o : Order) :
    ((new_order s now o).2.isOk = true ↔ spec_violates_rule o = false) ∧
    (spec_violates_rule o = true → (new_order s now o).1 = s) ∧
    (spec_violates_rule o = false →
      ∃ a, (new_order s now o).2 = Except.ok a ∧ a.status = "accepted") := by
  refine ⟨⟨fun h => ?_, fun h => ?_⟩, fun h => ?_, fun h => ?_⟩
  · by_contra hv
    rw [Bool.not_eq_false] at hv
    obtain ⟨msg, hm⟩ := new_order_error_of_invalid s now o hv
    rw [hm] at h
    simp [Except.isOk, Except.toBool] at h
  · rw [new_order_eq_of_valid s now o h]
    rfl
  · obtain ⟨msg, hm⟩ := new_order_error_of_invalid s now o h
    rw [hm]
  · rw [new_order_eq_of_valid s now o h]
    exact ⟨_, rfl, rfl⟩

theorem oms_validation_characterization_witness :
    (∃ a, (new_order (OMSState.init false) 7
        ⟨"o1", "AAPL", "buy", "market", 10, none, none⟩).2 = Except.ok a ∧
      a.status = "accepted") ∧
    (new_order (OMSState.init false) 7
        ⟨"o2", "AAPL", "hold", "market", 10, none, none⟩).1 = OMSState.init false :=
  ⟨(oms_validation_characterization (OMSState.init false) 7 _).2.2 (by decide),
   (oms_validation_characterization (OMSState.init false) 7 _).2.1 (by decide)⟩

/-- C1 counterexample: re-submitting an id already on record does not
fail, and the previously recorded order is replaced. -/
theorem duplicate_id_accepted_and_overwrites :
    (new_order ((new_order (OMSState.init false) 0
        ⟨"A1", "AAPL", "buy", "market", 1, none, some 5⟩).1) 0
        ⟨"A1", "AAPL", "sell", "market", 2, none, some 6⟩).2.isOk = true ∧
    dictGet ((new_order ((new_order (OMSState.init false) 0
        ⟨"A1", "AAPL", "buy", "market", 1, none, some 5⟩).1) 0
        ⟨"A1", "AAPL", "sell", "market", 2, none, some 6⟩).1).orders "A1" =
      some ⟨"A1", "AAPL", "sell", "market", 2, none, some 6⟩ ∧
    (⟨"A1", "AAPL", "sell", "market", 2, none, some 6⟩ : Order) ≠
      ⟨"A1", "AAPL", "buy", "market", 1, none, some 5⟩ := by decide

/-- C1 amended: submitting an order whose id is already on record
succeeds with status accepted and silently replaces the previously
recorded order and its status. -/
theorem duplicate_submission_overwrites (s : OMSState) (now : Nat) (o : Order)
    (hv : spec_violates_rule o = false) (hdup : dictGet s.orders o.id ≠ none) :
    (new_order s now o).2.isOk = true ∧
    dictGet (new_order s now o).1.orders o.id =
      some { o with timestamp := some (o.timestamp.getD now) } ∧
    dictGet (new_order s now o).1.statuses o.id = some "accepted" := by
  rw [new_order_eq_of_valid s now o hv]
  exact ⟨rfl, dictGet_insert_self _ _ _, dictGet_insert_self _ _ _⟩

theorem duplicate_submission_overwrites_witness :
    (new_order ((new_order (OMSState.init false) 0
        ⟨"A1", "AAPL", "buy", "market", 1, none, some 5⟩).1) 0
        ⟨"A1", "AAPL", "sell", "market", 2, none, some 6⟩).2.isOk = true ∧
    dictGet ((new_order ((new_order (OMSState.init false) 0
        ⟨"A1", "AAPL", "buy", "market", 1, none, some 5⟩).1) 0
        ⟨"A1", "AAPL", "sell", "market", 2, none, some 6⟩).1).orders "A1" =
      some ⟨"A1", "AAPL", "sell", "market", 2, none, some 6⟩ ∧
    dictGet ((new_order ((new_order (OMSState.init false) 0
        ⟨"A1", "AAPL", "buy", "market", 1, none, some 5⟩).1) 0
        ⟨"A1", "AAPL", "sell", "market", 2, none, some 6⟩).1).statuses "A1" =
      some "accepted" :=
  duplicate_submission_overwrites _ 0 _ (by decide) (by decide)

/-- C8 counterexample: a market order carrying a price passes validation
and is accepted, so price is not present exactly when required. -/
theorem market_order_with_price_accepted :
    (⟨"M1", "AAPL", "buy", "market", 1, some 5, none⟩ : Order).type = "market" ∧
    (⟨"M1", "AAPL", "buy", "market", 1, some 5, none⟩ : Order).price ≠ none ∧
    (new_order (OMSState.init false) 0
      ⟨"M1", "AAPL", "buy", "market", 1, some 5, none⟩).2.isOk = true := by decide

/-- C8 amended: every order accepted by the OMS satisfies the forward
direction of the price invariant: a limit or stop order always carries a
price (a market order may also carry one). -/
theorem accepted_limit_stop_has_price (s : OMSState) (now : Nat) (o : Order)
    (s2 : OMSState) (a : Ack) (h : new_order s now o = (s2, Except.ok a))
    (ht : o.type = "limit" ∨ o.type = "stop") : o.price ≠ none := by
  intro hp
  unfold new_order at h
  split_ifs at h with h1 h2 h3 h4 h5 <;>
    first
      | exact h4 ⟨ht, hp⟩
      | simp_all

theorem accepted_limit_stop_has_price_witness :
    (⟨"L1", "AAPL", "buy", "limit", 1, some 3, some 2⟩ : Order).price ≠ none :=
  accepted_limit_stop_has_price (OMSState.init false) 0
    ⟨"L1", "AAPL", "buy", "limit", 1, some 3, some 2⟩
    ⟨[("L1", ⟨"L1", "AAPL", "buy", "limit", 1, some 3, some 2⟩)],
     [("L1", "accepted")], false, []⟩
    ⟨"L1", "accepted", 2⟩ rfl (Or.inl rfl)

/-- C9: a valid submission keeps a caller-supplied timestamp exactly and
assigns `now` when none was supplied, both in the acknowledgement and in
the recorded order. -/
theorem oms_timestamp_preserved (s : OMSState) (now : Nat) (o : Order)
    (hv : spec_violates_rule o = false) :
    ∃ a, (new_order s now o).2 = Except.ok a ∧
      (∀ t, o.timestamp = some t → a.timestamp = t) ∧
      (o.timestamp = none → a.timestamp = now) ∧
      dictGet (new_order s now o).1.orders o.id =
        some { o with timestamp := some a.timestamp } := by
  rw [new_order_eq_of_valid s now o hv]
  refine ⟨_, rfl, fun t ht => ?_, fun ht => ?_, ?_⟩
  · simp [ht]
  · simp [ht]
  · exact dictGet_insert_self _ _ _

theorem oms_timestamp_preserved_witness :
    (∃ a, (new_order (OMSState.init true) 9
        ⟨"T1", "AAPL", "buy", "market", 1, none, some 42⟩).2 = Except.ok a ∧
      (∀ t, (some 42 : Option Nat) = some t → a.timestamp = t) ∧
      ((some 42 : Option Nat) = none → a.timestamp = 9) ∧
      dictGet (new_order (OMSState.init true) 9
          ⟨"T1", "AAPL", "buy", "market", 1, none, some 42⟩).1.orders "T1" =
        some ⟨"T1", "AAPL", "buy", "market", 1, none, some a.timestamp⟩) ∧
    (∃ a, (new_order (OMSState.init true) 9
        ⟨"T2", "AAPL", "buy", "market", 1, none, none⟩).2 = Except.ok a ∧
      (∀ t, (none : Option Nat) = some t → a.timestamp = t) ∧
      ((none : Option Nat) = none → a.timestamp = 9) ∧
      dictGet (new_order (OMSState.init true) 9
          ⟨"T2", "AAPL", "buy", "market", 1, none, none⟩).1.orders "T2" =
        some ⟨"T2", "AAPL", "buy", "market", 1, none, some a.timestamp⟩) :=
  ⟨oms_timestamp_preserved (OMSState.init true) 9 _ (by decide),
   oms_timestamp_preserved (OMSState.init true) 9 _ (by decide)⟩


theorem arbStep_signal_iff (threshold prevSpread spread : ℚ) (prevPos : Int) :
    (arbStep threshold prevSpread spread prevPos).1 ≠ 0 ↔
      ((arbStep threshold prevSpread spread prevPos).2 ≠ prevPos ∧
       (arbStep threshold prevSpread spread prevPos).2 ≠ 0) := by
  unfold arbStep
  split_ifs with h1 h2 h3 h4 h5 h6 <;> simp_all

theorem arbLoop_chain (threshold : ℚ) (rest : List ℚ) :
    ∀ (prevSpread : ℚ) (prevPos sig : Int),
      List.Chain (fun a b => b.1 ≠ 0 ↔ (b.2 ≠ a.2 ∧ b.2 ≠ 0)) (sig, prevPos)
        (arbLoop threshold prevSpread prevPos rest) := by
  induction rest with
  | nil => intro ps p sig; exact List.Chain.nil
  | cons s rest ih =>
    intro ps p sig
    exact List.Chain.cons (arbStep_signal_iff threshold ps s p) (ih s _ _)

theorem mem_nonzeroSignalBars (sigs : List (Int × Int)) (i : Nat) (v : Int) :
    (i, v) ∈ nonzeroSignalBars sigs ↔
      (∃ pos, sigs[i]? = some (v, pos)) ∧ v ≠ 0 := by
  simp only [nonzeroSignalBars, List.mem_filterMap]
  constructor
  · rintro ⟨⟨j, sg, ps⟩, hmem, hf⟩
    rw [List.mem_enum_iff_getElem?] at hmem
    by_cases hz : sg ≠ 0
    · simp only [hz, if_pos, ne_eq, not_false_eq_true, ite_true, Option.some.injEq,
        Prod.mk.injEq] at hf
      obtain ⟨hji, hvv⟩ := hf
      subst hji; subst hvv
      exact ⟨⟨ps, hmem⟩, hz⟩
    · simp [hz] at hf
  · rintro ⟨⟨pos, hget⟩, hv⟩
    refine ⟨(i, v, pos), ?_, ?_⟩
    · rw [List.mem_enum_iff_getElem?]; exact hget
    · simp [hv]

/-- Records/chain/head characterisation of the arbitrage signal columns:
the emitted records are exactly the bars whose signal is nonzero, the
signal is nonzero exactly when the position changes to a nonzero value,
and bar 0 carries (0, 0). -/
theorem arb_signals_records_iff (threshold : ℚ) (spreads : List ℚ) :
    (∀ i v, (i, v) ∈ nonzeroSignalBars (arbSignals threshold spreads) ↔
      (∃ pos, (arbSignals threshold spreads)[i]? = some (v, pos)) ∧ v ≠ 0) ∧
    List.Chain' (fun a b => b.1 ≠ 0 ↔ (b.2 ≠ a.2 ∧ b.2 ≠ 0))
      (arbSignals threshold spreads) ∧
    ∀ h0 ∈ (arbSignals threshold spreads).head?, h0 = ((0 : Int), (0 : Int)) := by
  refine ⟨fun i v => mem_nonzeroSignalBars _ i v, ?_, ?_⟩
  · cases spreads with
    | nil => exact trivial
    | cons s0 rest =>
      show List.Chain _ (0, 0) (arbLoop threshold s0 0 rest)
      exact arbLoop_chain threshold rest s0 0 0
  · cases spreads with
    | nil => intro h0 h; simp [arbSignals] at h
    | cons s0 rest => intro h0 h; simp [arbSignals] at h; simp [h]


/-- C3 counterexample: running the arbitrage strategy on p1 = [1, 5, 1],
p2 = [0, 1, 2] with threshold 2, the target position sequence is
[0, -1, 0] — it changes at bar 1 and changes back to 0 at bar 2 — but the
emitted records are just [(1, -1)]: the exit to flat at bar 2 produces no
record, because the signal value 0 is filtered out. -/
theorem arb_exit_record_missing :
    (arbSignals 2 (arbSpread [1, 5, 1] [0, 1, 2])).map Prod.snd = [0, -1, 0] ∧
    arbEmittedSignals [1, 5, 1] [0, 1, 2] 2 = [(1, -1)] ∧
    (∀ v : Int, (2, v) ∉ arbEmittedSignals [1, 5, 1] [0, 1, 2] 2) := by
  have hs : arbSignals 2 (arbSpread [1, 5, 1] [0, 1, 2]) = [(0, 0), (-1, -1), (0, 0)] := by
    norm_num [arbSignals, arbSpread, polyfitSlope, arbLoop, arbStep]
  have he : arbEmittedSignals [1, 5, 1] [0, 1, 2] 2 = [(1, -1)] := by
    rw [arbEmittedSignals, hs]
    norm_num [nonzeroSignalBars, List.enum, List.enumFrom, List.filterMap_cons,
      List.filterMap_nil]
  refine ⟨by rw [hs]; norm_num, he, ?_⟩
  intro v hv
  rw [he] at hv
  simp at hv

/-- C4 counterexample: two runs of the arbitrage strategy whose price
histories agree on every bar up to and including bar 1 (the second
history differs only at the later bar 2) emit different signals at
bar 1: the hedge ratio is fit on the whole history, so the spread at an
early bar depends on later bars. -/
theorem arb_lookahead_at_bar_one :
    List.take 2 ([1, 5, 1] : List ℚ) = List.take 2 ([1, 5, 7] : List ℚ) ∧
    List.take 2 ([0, 1, 2] : List ℚ) = List.take 2 ([0, 1, 2] : List ℚ) ∧
    arbSignalAt [1, 5, 1] [0, 1, 2] 2 1 = -1 ∧
    arbSignalAt [1, 5, 7] [0, 1, 2] 2 1 = 0 := by
  refine ⟨by norm_num, by norm_num, ?_, ?_⟩ <;>
    norm_num [arbSignalAt, arbSignals, arbSpread, polyfitSlope, arbLoop, arbStep]


theorem windowAt_eq_of_take_eq {p q : List ℚ} {n : Nat} (h : p.take n = q.take n)
    {win i : Nat} (hw : win ≤ i + 1) (hi : i + 1 ≤ n) :
    windowAt win p i = windowAt win q i := by
  unfold windowAt
  have hk : i + 1 - win + win = i + 1 := by omega
  rw [List.take_drop, List.take_drop, hk]
  have hpq : p.take (i + 1) = q.take (i + 1) := by
    have := congrArg (List.take (i + 1)) h
    rwa [List.take_take, List.take_take, Nat.min_eq_left hi] at this
  rw [hpq]

theorem rollingMean_eq_of_take_eq {p q : List ℚ} {n : Nat}
    (h : p.take n = q.take n) {win i : Nat} (hi : i + 1 ≤ n) :
    rollingMean win p i = rollingMean win q i := by
  unfold rollingMean
  by_cases hg : win ≤ i + 1 ∧ 1 ≤ win
  · rw [if_pos hg, if_pos hg, windowAt_eq_of_take_eq h hg.1 hi]
  · rw [if_neg hg, if_neg hg]

theorem rollingStd_eq_of_take_eq {p q : List ℚ} {n : Nat}
    (h : p.take n = q.take n) {win i : Nat} (hi : i + 1 ≤ n) :
    rollingStd win p i = rollingStd win q i := by
  unfold rollingStd
  by_cases hg : win ≤ i + 1 ∧ 2 ≤ win
  · rw [if_pos hg, if_pos hg, windowAt_eq_of_take_eq h hg.1 hi]
  · rw [if_neg hg, if_neg hg]

theorem priceAt_eq_of_take_eq {p q : List ℚ} {n : Nat}
    (h : p.take n = q.take n) {i : Nat} (hi : i < n) :
    priceAt p i = priceAt q i := by
  unfold priceAt
  have h1 : p.get? i = (p.take n)[i]? := by
    rw [List.get?_eq_getElem?, List.getElem?_take_of_lt hi]
  have h2 : q.get? i = (q.take n)[i]? := by
    rw [List.get?_eq_getElem?, List.getElem?_take_of_lt hi]
  rw [h1, h2, h]

theorem mrRow_eq_of_take_eq (win : Nat) (numStd : ℝ) {p q : List ℚ} {n : Nat}
    (h : p.take n = q.take n) :
    ∀ j, j < n → mrRow win numStd p j = mrRow win numStd q j := by
  intro j
  induction j with
  | zero => intro _; rfl
  | succ j ih =>
    intro hj
    have hj' : j < n := by omega
    have hb : j + 1 + 1 ≤ n := by omega
    unfold mrRow
    rw [ih hj', priceAt_eq_of_take_eq h hj, priceAt_eq_of_take_eq h hj',
      show upperBand win numStd p (j + 1) = upperBand win numStd q (j + 1) from by
        unfold upperBand
        rw [rollingMean_eq_of_take_eq h hb, rollingStd_eq_of_take_eq h hb],
      show lowerBand win numStd p (j + 1) = lowerBand win numStd q (j + 1) from by
        unfold lowerBand
        rw [rollingMean_eq_of_take_eq h hb, rollingStd_eq_of_take_eq h hb],
      rollingMean_eq_of_take_eq h hb]

/-- The mean-reversion signal at bar i is the same on any two price
histories that agree on all bars up to and including bar i. -/
theorem mr_no_lookahead (win : Nat) (numStd : ℝ) (p q : List ℚ) (i : Nat)
    (h : p.take (i + 1) = q.take (i + 1)) :
    mrSignalAt win numStd p i = mrSignalAt win numStd q i := by
  unfold mrSignalAt
  rw [mrRow_eq_of_take_eq win numStd h i (Nat.lt_succ_self i)]

theorem pyInt_eq_floor_of_floor_pos {q : ℚ} (h : 0 < ⌊q⌋) : pyInt q = ⌊q⌋ := by
  unfold pyInt
  rw [if_pos]
  have : (1 : ℚ) ≤ q := by exact_mod_cast Int.le_floor.mp h
  linarith

theorem pyInt_nonpos_of_floor_nonpos {q : ℚ} (h : ⌊q⌋ ≤ 0) : pyInt q ≤ 0 := by
  unfold pyInt
  split_ifs with h0
  · exact h
  · have hq : (0 : ℚ) ≤ -q := by linarith [lt_of_not_ge h0]
    have := Int.floor_nonneg.mpr hq
    omega

theorem mrTradeDecision_entry (symbol : String) (f cash price : ℚ)
    (positions : List (String × Int)) (sig : Int) (hsig : sig = 1 ∨ sig = -1) :
    mrTradeDecision symbol f cash positions sig price =
      if pyInt (cash * f / price) ≤ 0 then none
      else some (if sig = 1 then "buy" else "sell", pyInt (cash * f / price)) := by
  rcases hsig with h | h <;> subst h <;> rfl

/-- C5 amended: in the mean-reversion and arbitrage backtest loops every
processed entry signal is sized to floor(position_fraction × current cash
/ price), and a non-positive computed quantity causes the signal to be
skipped silently; the trend-following loop instead submits the fixed
quantity 100 (see the counterexample). -/
theorem entry_sizing_floor_fraction (symbol : String)
    (f cash price p1 p2 : ℚ) (positions : List (String × Int)) (sig : Int)
    (hsig : sig = 1 ∨ sig = -1) :
    (0 < ⌊cash * f / price⌋ →
      mrTradeDecision symbol f cash positions sig price =
        some (if sig = 1 then "buy" else "sell", ⌊cash * f / price⌋)) ∧
    (⌊cash * f / price⌋ ≤ 0 →
      mrTradeDecision symbol f cash positions sig price = none) ∧
    (0 < ⌊cash * f / p1⌋ → 0 < ⌊cash * f / p2⌋ →
      arbEntrySizing f cash p1 p2 =
        some (⌊cash * f / p1⌋, ⌊cash * f / p2⌋)) ∧
    ((⌊cash * f / p1⌋ ≤ 0 ∨ ⌊cash * f / p2⌋ ≤ 0) →
      arbEntrySizing f cash p1 p2 = none) := by
  refine ⟨fun hq => ?_, fun hq => ?_, fun h1 h2 => ?_, fun h12 => ?_⟩
  · rw [mrTradeDecision_entry symbol f cash price positions sig hsig,
      pyInt_eq_floor_of_floor_pos hq, if_neg (not_le.mpr hq)]
  · rw [mrTradeDecision_entry symbol f cash price positions sig hsig,
      if_pos (pyInt_nonpos_of_floor_nonpos hq)]
  · simp only [arbEntrySizing]
    rw [pyInt_eq_floor_of_floor_pos h1, pyInt_eq_floor_of_floor_pos h2,
      if_neg (not_or.mpr ⟨not_le.mpr h1, not_le.mpr h2⟩)]
  · simp only [arbEntrySizing]
    rcases h12 with h | h
    · rw [if_pos (Or.inl (pyInt_nonpos_of_floor_nonpos h))]
    · rw [if_pos (Or.inr (pyInt_nonpos_of_floor_nonpos h))]

theorem entry_sizing_floor_fraction_witness :
    mrTradeDecision "AAPL" (1/10) 100000 [] 1 3 = some ("buy", 3333) ∧
    mrTradeDecision "AAPL" (1/10) 100 [] 1 200 = none := by
  have hfl1 : ⌊(100000 : ℚ) * (1/10) / 3⌋ = 3333 := by
    rw [show (100000 : ℚ) * (1/10) / 3 = 10000 / 3 by norm_num]
    rw [Int.floor_eq_iff]
    norm_num
  have hfl2 : ⌊(100 : ℚ) * (1/10) / 200⌋ = 0 := by
    rw [show (100 : ℚ) * (1/10) / 200 = 1 / 20 by norm_num]
    rw [Int.floor_eq_iff]
    norm_num
  constructor
  · have h1 := (entry_sizing_floor_fraction "AAPL" (1/10) 100000 3 1 1 [] 1
      (Or.inl rfl)).1 (by rw [hfl1]; norm_num)
    rw [h1, hfl1]
    norm_num
  · exact (entry_sizing_floor_fraction "AAPL" (1/10) 100 200 1 1 [] 1
      (Or.inl rfl)).2.1 (by rw [hfl2])

/-- C5 counterexample: the trend-following loop submits every processed
buy entry with the fixed quantity 100, not
floor(position_fraction × cash / price): with the loop's own starting
cash 100000, the fraction 1/10 used elsewhere in the project, and
price 3, that floor is 3333 ≠ 100. -/
theorem tf_quantity_not_fraction_sized :
    tfTradeDecision 1 = some ("buy", 100) ∧
    pyInt ((100000 : ℚ) * (1 / 10) / 3) = 3333 ∧ (100 : Int) ≠ 3333 := by
  refine ⟨rfl, ?_, by decide⟩
  rw [show (100000 : ℚ) * (1 / 10) / 3 = 10000 / 3 by norm_num]
  simp only [pyInt]
  rw [if_pos (by norm_num : (0 : ℚ) ≤ 10000 / 3)]
  rw [Int.floor_eq_iff]
  norm_num

/-- C6 amended: the mean-reversion and arbitrage metric blocks report
sharpe ratio and max drawdown both exactly 0 when the blotter has 0 or 1
entries; the trend-following block guards only against an empty blotter,
and on a 1-entry blotter its sharpe is NaN (see the counterexample). -/
theorem degenerate_blotter_metrics_zero (startingCash : ℚ)
    (blotter : List BlotterRow) (h : blotter.length ≤ 1) :
    mrMetrics startingCash blotter = (0, 0) ∧
    arbMetrics startingCash blotter = (0, 0) := by
  have hg : ¬(blotter ≠ [] ∧ 1 < blotter.length) := by
    rintro ⟨-, h2⟩
    omega
  constructor
  · unfold mrMetrics
    rw [if_neg hg]
  · unfold arbMetrics
    rw [if_neg hg]

theorem degenerate_blotter_metrics_zero_witness :
    mrMetrics 100000 [⟨5, -500⟩] = (0, 0) ∧
    arbMetrics 100000 [⟨5, -500⟩] = (0, 0) :=
  degenerate_blotter_metrics_zero 100000 [⟨5, -500⟩] (by decide)

/-- C6 counterexample: on a blotter with exactly one entry the
trend-following metric block computes the sharpe ratio with no guard:
the std of the single (filled) return is NaN, so the reported sharpe is
NaN rather than 0 (the drawdown is 0). -/
theorem tf_single_trade_sharpe_nan :
    (tfMetrics 90000 [⟨0, -10000⟩]).1 = none ∧
    (tfMetrics 90000 [⟨0, -10000⟩]).2 = 0 ∧
    (none : Option ℝ) ≠ some 0 := by
  refine ⟨?_, ?_, by simp⟩
  · unfold tfMetrics
    rw [if_pos (by simp)]
    simp [cumsum, sampleStd, pctChange]
  · unfold tfMetrics
    rw [if_pos (by simp)]
    simp [cumsum, pctChange, runningMax, runningMax.go, listMin]

/-- C7 counterexample: on the two-entry blotter with pnl column [0, -100]
and starting cash 1000 the mean-reversion metric block reports max
drawdown 0, while the spec formula min((equity − peak)/peak) over the
equity curve [1000, 900] gives −1/10. -/
theorem mr_two_entry_drawdown_not_formula :
    (mrMetrics 1000 [⟨0, 0⟩, ⟨-100, 0⟩]).2 = 0 ∧
    spec_max_drawdown 1000 [⟨0, 0⟩, ⟨-100, 0⟩] = -(1/10) ∧
    ((0 : ℚ) ≠ -(1/10)) := by
  have hequity : mrEquity 1000 [⟨0, 0⟩, ⟨-100, 0⟩] = [1000, 900] := by
    norm_num [mrEquity, cumsum]
  refine ⟨?_, ?_, by norm_num⟩
  · unfold mrMetrics
    rw [if_pos (by simp)]
    rw [hequity]
    norm_num [pctChange]
  · unfold spec_max_drawdown
    rw [hequity]
    norm_num [relativeDrawdowns, runningMax, runningMax.go, listMin]

theorem cumsum_length (l : List ℚ) : (cumsum l).length = l.length := by
  simp [cumsum, List.length_scanl]

theorem mrEquity_length (startingCash : ℚ) (blotter : List BlotterRow) :
    (mrEquity startingCash blotter).length = blotter.length := by
  simp [mrEquity, cumsum_length]

theorem pctChange_length (l : List ℚ) : (pctChange l).length = l.length - 1 := by
  simp [pctChange]

/-- C7 amended: the mean-reversion metric block reports the spec's
relative max drawdown formula only for blotters with at least 3 entries
(whose equity points are nonzero, so that no percentage change is
dropped); for a blotter with exactly 2 entries it reports 0 even though
the formula can be nonzero. -/
theorem mr_max_drawdown_characterization (startingCash : ℚ)
    (blotter : List BlotterRow) :
    (blotter.length = 2 → (mrMetrics startingCash blotter).2 = 0) ∧
    (3 ≤ blotter.length →
      (∀ e ∈ mrEquity startingCash blotter, e ≠ 0) →
      (mrMetrics startingCash blotter).2 =
        spec_max_drawdown startingCash blotter) := by
  constructor
  · intro h2
    unfold mrMetrics
    rw [if_pos (by constructor <;> [(intro hn; rw [hn] at h2; simp at h2); omega])]
    rw [if_neg (by rw [pctChange_length, mrEquity_length, h2]; omega)]
  · intro h3 _
    unfold mrMetrics
    rw [if_pos (by constructor <;> [(intro hn; rw [hn] at h3; simp at h3); omega])]
    rw [if_pos (by rw [pctChange_length, mrEquity_length]; omega)]
    rfl

theorem mr_max_drawdown_characterization_witness :
    (mrMetrics 1000 [⟨0, 0⟩, ⟨-100, 0⟩, ⟨50, 0⟩]).2 =
      spec_max_drawdown 1000 [⟨0, 0⟩, ⟨-100, 0⟩, ⟨50, 0⟩] := by
  have hequity : mrEquity 1000 [⟨0, 0⟩, ⟨-100, 0⟩, ⟨50, 0⟩] = [1000, 900, 950] := by
    norm_num [mrEquity, cumsum]
  refine (mr_max_drawdown_characterization 1000 _).2 (by norm_num) ?_
  rw [hequity]
  intro e he
  simp at he
  rcases he with h | h | h <;> rw [h] <;> norm_num

/-- C10 counterexample: the trend-following metrics dict lacks four of
the required keys. -/
theorem tf_metrics_keys_missing :
    "total_pnl" ∉ tfMetricsKeys ∧ "num_trades" ∉ tfMetricsKeys ∧
    "final_cash" ∉ tfMetricsKeys ∧ "final_positions" ∉ tfMetricsKeys := by
  decide

/-- C10 amended: the mean-reversion and arbitrage runs return metrics
dicts containing all seven required keys, but the trend-following run
returns only total_return, max_drawdown and sharpe_ratio. -/
theorem metrics_keys_by_strategy :
    spec_required_metrics_keys ⊆ mrMetricsKeys ∧
    spec_required_metrics_keys ⊆ arbMetricsKeys ∧
    ¬ spec_required_metrics_keys ⊆ tfMetricsKeys := by
  decide

theorem chain'_map_range {α : Type} (R : α → α → Prop) :
    ∀ (n : Nat) (f : Nat → α), (∀ i, R (f i) (f (i + 1))) →
      List.Chain' R ((List.range n).map f) := by
  intro n
  induction n with
  | zero => intro f _; simp
  | succ n ih =>
    intro f h
    rw [List.range_succ_eq_map, List.map_cons, List.map_map]
    rw [List.chain'_cons']
    refine ⟨?_, ih (f ∘ Nat.succ) (fun i => h (i + 1))⟩
    intro y hy
    cases n with
    | zero => simp at hy
    | succ m =>
      rw [List.range_succ_eq_map] at hy
      simp at hy
      rw [← hy]
      exact h 0

theorem head?_map_range {α : Type} (f : Nat → α) (n : Nat) (h0 : α)
    (hh : h0 ∈ ((List.range n).map f).head?) : h0 = f 0 := by
  cases n with
  | zero => simp at hh
  | succ m =>
    rw [List.range_succ_eq_map] at hh
    simp at hh
    exact hh.symm

theorem mrStep_signal_iff (cur prev : ℝ) (upper lower mid : Option ℝ)
    (prevPos : Int) :
    ((mrStep cur prev upper lower mid prevPos).1 ≠ 0 ↔
      ((mrStep cur prev upper lower mid prevPos).2 ≠ prevPos ∧
       (mrStep cur prev upper lower mid prevPos).2 ≠ 0)) := by
  rcases upper with _ | u <;> rcases lower with _ | lo <;> rcases mid with _ | md <;>
    simp only [mrStep] <;> try simp
  split_ifs with h1 h2 h3 h4 h5 h6 h7 <;> simp_all

theorem mrRow_chain_step (win : Nat) (numStd : ℝ) (prices : List ℚ) (i : Nat) :
    ((mrRow win numStd prices (i + 1)).1 ≠ 0 ↔
      ((mrRow win numStd prices (i + 1)).2 ≠ (mrRow win numStd prices i).2 ∧
       (mrRow win numStd prices (i + 1)).2 ≠ 0)) := by
  have h := mrStep_signal_iff (priceAt prices (i + 1)) (priceAt prices i)
    (upperBand win numStd prices (i + 1)) (lowerBand win numStd prices (i + 1))
    (rollingMean win prices (i + 1)) (mrRow win numStd prices i).2
  simpa only [mrRow] using h

theorem tfClean_signal_iff (shortWin longWin : Nat) (prices : List ℚ) (i : Nat) :
    (tfCleanSignalAt shortWin longWin prices (i + 1) ≠ 0 ↔
      (tfSignalAt shortWin longWin prices (i + 1) ≠
        tfSignalAt shortWin longWin prices i ∧
       tfSignalAt shortWin longWin prices (i + 1) ≠ 0)) := by
  unfold tfCleanSignalAt
  by_cases h : tfSignalAt shortWin longWin prices (i + 1) =
      tfSignalAt shortWin longWin prices i
  · simp [h]
  · simp [h]

theorem tfSignalAt_zero (shortWin longWin : Nat) (prices : List ℚ) :
    tfSignalAt shortWin longWin prices 0 = 0 := by
  unfold tfSignalAt
  rcases hS : rollingMeanQ shortWin prices 0 with _ | ms
  · simp
  rcases hL : rollingMeanQ longWin prices 0 with _ | ml
  · simp
  have hml : ms = ml := by
    unfold rollingMeanQ at hS hL
    split_ifs at hS hL with h1 h2
    have e1 : shortWin = 1 := by omega
    have e2 : longWin = 1 := by omega
    subst e1
    subst e2
    rw [Option.some_inj] at hS hL
    rw [← hS, ← hL]
  simp [hml]

theorem tfCleanSignalAt_zero (shortWin longWin : Nat) (prices : List ℚ) :
    tfCleanSignalAt shortWin longWin prices 0 = 0 := by
  unfold tfCleanSignalAt
  simp [tfSignalAt_zero]

theorem rollingMeanQ_eq_of_take_eq {p q : List ℚ} {n : Nat}
    (h : p.take n = q.take n) {win i : Nat} (hi : i + 1 ≤ n) :
    rollingMeanQ win p i = rollingMeanQ win q i := by
  unfold rollingMeanQ
  by_cases hg : win ≤ i + 1 ∧ 1 ≤ win
  · rw [if_pos hg, if_pos hg, windowAt_eq_of_take_eq h hg.1 hi]
  · rw [if_neg hg, if_neg hg]

theorem tfSignalAt_eq_of_take_eq {p q : List ℚ} {n : Nat}
    (h : p.take n = q.take n) {shortWin longWin i : Nat} (hi : i + 1 ≤ n) :
    tfSignalAt shortWin longWin p i = tfSignalAt shortWin longWin q i := by
  unfold tfSignalAt
  rw [rollingMeanQ_eq_of_take_eq h hi, rollingMeanQ_eq_of_take_eq h hi]


/-- C3 amended: for each of the three strategies (arbitrage, mean
reversion, trend following) the emitted signal records are exactly the
bars whose signal value is nonzero; that value is nonzero exactly when
the per-bar target differs from the previous bar's target AND the new
target is nonzero; and bar 0 carries signal 0 and target 0.  Hence every
bar whose target changes to a nonzero value yields exactly one record,
and bars whose target changes to 0 (exits to flat) yield none. -/
theorem strategy_records_iff_change_to_nonzero (threshold : ℚ)
    (spreads : List ℚ) (win : Nat) (numStd : ℝ) (mrPrices : List ℚ)
    (shortWin longWin : Nat) (tfPrices : List ℚ) :
    ((∀ i v, (i, v) ∈ nonzeroSignalBars (arbSignals threshold spreads) ↔
        (∃ pos, (arbSignals threshold spreads)[i]? = some (v, pos)) ∧ v ≠ 0) ∧
      List.Chain' (fun a b => b.1 ≠ 0 ↔ (b.2 ≠ a.2 ∧ b.2 ≠ 0))
        (arbSignals threshold spreads) ∧
      (∀ h0 ∈ (arbSignals threshold spreads).head?,
        h0 = ((0 : Int), (0 : Int)))) ∧
    ((∀ i v, (i, v) ∈ nonzeroSignalBars (mrSignals win numStd mrPrices) ↔
        (∃ pos, (mrSignals win numStd mrPrices)[i]? = some (v, pos)) ∧ v ≠ 0) ∧
      List.Chain' (fun a b => b.1 ≠ 0 ↔ (b.2 ≠ a.2 ∧ b.2 ≠ 0))
        (mrSignals win numStd mrPrices) ∧
      (∀ h0 ∈ (mrSignals win numStd mrPrices).head?,
        h0 = ((0 : Int), (0 : Int)))) ∧
    ((∀ i v, (i, v) ∈ nonzeroSignalBars (tfSignals shortWin longWin tfPrices) ↔
        (∃ pos, (tfSignals shortWin longWin tfPrices)[i]? = some (v, pos)) ∧ v ≠ 0) ∧
      List.Chain' (fun a b => b.1 ≠ 0 ↔ (b.2 ≠ a.2 ∧ b.2 ≠ 0))
        (tfSignals shortWin longWin tfPrices) ∧
      (∀ h0 ∈ (tfSignals shortWin longWin tfPrices).head?,
        h0 = ((0 : Int), (0 : Int)))) := by
  refine ⟨arb_signals_records_iff threshold spreads,
    ⟨fun i v => mem_nonzeroSignalBars _ i v, ?_, ?_⟩,
    ⟨fun i v => mem_nonzeroSignalBars _ i v, ?_, ?_⟩⟩
  · exact chain'_map_range _ _ _ (fun i => mrRow_chain_step win numStd mrPrices i)
  · intro h0 hh
    exact (head?_map_range _ _ _ hh).trans rfl
  · exact chain'_map_range _ _ _
      (fun i => tfClean_signal_iff shortWin longWin tfPrices i)
  · intro h0 hh
    rw [head?_map_range _ _ _ hh, tfCleanSignalAt_zero, tfSignalAt_zero]

theorem strategy_records_iff_change_to_nonzero_witness :
    ((1, -1) ∈ nonzeroSignalBars (arbSignals 2 [1, 5, 1]) ↔
      (∃ pos, (arbSignals 2 [1, 5, 1])[1]? = some (-1, pos)) ∧ (-1 : Int) ≠ 0) ∧
    List.Chain' (fun a b => b.1 ≠ 0 ↔ (b.2 ≠ a.2 ∧ b.2 ≠ 0))
      (tfSignals 1 2 [1, 2, 3]) ∧
    List.Chain' (fun a b => b.1 ≠ 0 ↔ (b.2 ≠ a.2 ∧ b.2 ≠ 0))
      (mrSignals 2 0 [1, 2, 3]) :=
  ⟨(strategy_records_iff_change_to_nonzero 2 [1, 5, 1] 2 0 [1, 2, 3] 1 2
      [1, 2, 3]).1.1 1 (-1),
   (strategy_records_iff_change_to_nonzero 2 [1, 5, 1] 2 0 [1, 2, 3] 1 2
      [1, 2, 3]).2.2.2.1,
   (strategy_records_iff_change_to_nonzero 2 [1, 5, 1] 2 0 [1, 2, 3] 1 2
      [1, 2, 3]).2.1.2.1⟩

/-- C4 amended: the mean-reversion and trend-following strategies have no
look-ahead — the signal at bar i (for trend following, both the per-bar
signal and the emitted clean signal) is the same on any two price
histories that agree on all bars up to and including bar i — whereas the
arbitrage strategy violates the property: its hedge ratio is fit on the
full history (see the counterexample). -/
theorem no_lookahead_mr_tf (win shortWin longWin : Nat) (numStd : ℝ)
    (p q : List ℚ) (i : Nat) (h : p.take (i + 1) = q.take (i + 1)) :
    mrSignalAt win numStd p i = mrSignalAt win numStd q i ∧
    tfSignalAt shortWin longWin p i = tfSignalAt shortWin longWin q i ∧
    tfCleanSignalAt shortWin longWin p i = tfCleanSignalAt shortWin longWin q i := by
  refine ⟨mr_no_lookahead win numStd p q i h,
    tfSignalAt_eq_of_take_eq h (le_refl (i + 1)), ?_⟩
  unfold tfCleanSignalAt
  cases i with
  | zero => rw [tfSignalAt_eq_of_take_eq h (le_refl 1)]
  | succ j =>
    have hj : List.take (j + 1) p = List.take (j + 1) q := by
      have := congrArg (List.take (j + 1)) h
      rwa [List.take_take, List.take_take,
        Nat.min_eq_left (by omega : j + 1 ≤ j + 1 + 1)] at this
    show (if tfSignalAt shortWin longWin p (j + 1) ≠ tfSignalAt shortWin longWin p j
        then tfSignalAt shortWin longWin p (j + 1) else 0) =
      (if tfSignalAt shortWin longWin q (j + 1) ≠ tfSignalAt shortWin longWin q j
        then tfSignalAt shortWin longWin q (j + 1) else 0)
    rw [tfSignalAt_eq_of_take_eq h (le_refl (j + 1 + 1)),
      tfSignalAt_eq_of_take_eq hj (le_refl (j + 1))]

theorem no_lookahead_mr_tf_witness :
    mrSignalAt 2 0 [1, 2, 3] 1 = mrSignalAt 2 0 [1, 2, 4] 1 ∧
    tfSignalAt 1 2 [1, 2, 3] 1 = tfSignalAt 1 2 [1, 2, 4] 1 ∧
    tfCleanSignalAt 1 2 [1, 2, 3] 1 = tfCleanSignalAt 1 2 [1, 2, 4] 1 :=
  no_lookahead_mr_tf 2 1 2 0 [1, 2, 3] [1, 2, 4] 1 (by decide)

end Backtest
